import Mathlib

namespace Transcriber

/-! Shallow embedding of the transcription editor's audio-edit core
(`app/audio_editor.py`), selection reconciliation (`app/main.py`), and the
waveform viewport (`app/waveform_view.py`).  Sample values and times are
idealised as rationals; numpy arrays are lists of frames. -/

/-- Truncation toward zero on rationals: the behaviour of numpy's `astype` when
converting a floating-point value to an integer type. -/
def ratTrunc (q : ℚ) : ℤ := if 0 ≤ q then q.floor else -(-q).floor

/-- Python's builtin `round` on a float: round half to even, returning an
integer.  Used by `seconds_to_frames` via `int(round(x))`. -/
def pyRound (q : ℚ) : ℤ :=
  if q - q.floor < 1/2 then q.floor
  else if 1/2 < q - q.floor then q.floor + 1
  else if q.floor % 2 = 0 then q.floor else q.floor + 1

/-- `Rat.floor` agrees with the `FloorRing` floor. -/
theorem ratFloor_eq_floor (q : ℚ) : q.floor = ⌊q⌋ := by
  rw [Rat.floor_def, Rat.floor_def']

/-- `ratTrunc` in terms of `Int.floor` and `Int.ceil`. -/
theorem ratTrunc_eq (q : ℚ) : ratTrunc q = if 0 ≤ q then ⌊q⌋ else ⌈q⌉ := by
  unfold ratTrunc
  rw [ratFloor_eq_floor, ratFloor_eq_floor, Int.floor_neg, neg_neg]

/-- `pyRound` of an integer is that integer. -/
theorem pyRound_intCast (z : ℤ) : pyRound (z : ℚ) = z := by
  unfold pyRound
  rw [ratFloor_eq_floor, Int.floor_intCast]
  simp

/-- A numpy array as used by the audio code: either 1-D (a flat list of
samples) or 2-D (a list of frames, each frame a list of per-channel
samples, together with the declared channel count of axis 1). -/
inductive NPArr where
  | d1 (samples : List ℚ)
  | d2 (channels : ℕ) (rows : List (List ℚ))
deriving DecidableEq

/-- Channel count after the `ndim == 1` promotion (`a[:, None]`) performed at
the top of `splice_audio`: a 1-D array becomes a single column. -/
def npChannels : NPArr → ℕ
  | .d1 _ => 1
  | .d2 c _ => c

/-- Frame rows after promotion of a 1-D array to a single-channel column. -/
def npRows : NPArr → List (List ℚ)
  | .d1 xs => xs.map (fun v => [v])
  | .d2 _ rows => rows

/-- `len(a)`: the length of the leading axis. -/
def npLen (a : NPArr) : ℕ := (npRows a).length

/-- Shape consistency: in a 2-D array every row has the declared channel
count. -/
def npWF : NPArr → Prop
  | .d1 _ => True
  | .d2 c rows => ∀ r ∈ rows, r.length = c

instance : DecidablePred npWF := by
  intro a
  cases a with
  | d1 xs => exact isTrue trivial
  | d2 c rows => exact List.decidableBAll _ rows

/-- `np.concatenate([a, b], axis=0)`: defined only when the non-concatenated
axis matches; numpy raises `ValueError` otherwise (modelled as `none`). -/
def concatArr (a b : NPArr) : Option NPArr :=
  if npChannels b = npChannels a then some (.d2 (npChannels a) (npRows a ++ npRows b))
  else none

/-- `seconds_to_frames` from `app/audio_editor.py`:
`max(0, int(round(seconds * sample_rate)))`. -/
def seconds_to_frames (seconds : ℚ) (sample_rate : ℤ) : ℤ :=
  max 0 (pyRound (seconds * (sample_rate : ℚ)))

/-- `start_idx` of `splice_audio`:
`min(max(seconds_to_frames(start_sec, sr), 0), len(base))`. -/
def spliceStartIdx (base_audio : NPArr) (sample_rate : ℤ) (start_sec : ℚ) : ℤ :=
  min (max (seconds_to_frames start_sec sample_rate) 0) (npLen base_audio : ℤ)

/-- `end_idx` of `splice_audio`:
`min(max(seconds_to_frames(end_sec, sr), start_idx), len(base))`. -/
def spliceEndIdx (base_audio : NPArr) (sample_rate : ℤ) (start_sec end_sec : ℚ) : ℤ :=
  min (max (seconds_to_frames end_sec sample_rate)
        (spliceStartIdx base_audio sample_rate start_sec))
      (npLen base_audio : ℤ)

/-- `splice_audio` from `app/audio_editor.py`: promote 1-D inputs to single
columns, convert the time range to clamped frame indices, and concatenate
`base[:start_idx] ++ insert ++ base[end_idx:]`.  The concatenation is `none`
when the channel counts disagree (numpy `ValueError`). -/
def splice_audio (base_audio : NPArr) (sample_rate : ℤ) (start_sec end_sec : ℚ)
    (insert_audio : NPArr) : Option NPArr :=
  if npChannels insert_audio = npChannels base_audio then
    some (.d2 (npChannels base_audio)
      ((npRows base_audio).take (spliceStartIdx base_audio sample_rate start_sec).toNat
        ++ npRows insert_audio ++
       (npRows base_audio).drop
         (spliceEndIdx base_audio sample_rate start_sec end_sec).toNat))
  else none

/-- `np.clip(x, -1.0, 1.0)` on one sample, from `save_wav`. -/
def clip1 (x : ℚ) : ℚ := min (max x (-1)) 1

/-- One sample of the PCM16 encoding in `save_wav`: clip to `[-1, 1]`, scale
by `32767.0`, then convert with `astype(np.int16)` (truncation toward
zero). -/
def encode_pcm16 (x : ℚ) : ℤ := ratTrunc (clip1 x * 32767)

/-- One sample of the PCM16 decoding in `load_wav`: `int16 / 32767.0`. -/
def decode_pcm16 (n : ℤ) : ℚ := (n : ℚ) / 32767

/-- Elementwise PCM16 encoding of a mono buffer. -/
def encodeBuf (xs : List ℚ) : List ℤ := xs.map encode_pcm16

/-- Elementwise PCM16 decoding of a mono buffer. -/
def decodeBuf (ns : List ℤ) : List ℚ := ns.map decode_pcm16

/-- `WordSegment` from `app/apple_speech.py`: one recognised word with its
time span and character span. -/
structure WordSegment where
  text : String
  start_sec : ℚ
  duration_sec : ℚ
  char_start : ℕ
  char_length : ℕ
deriving DecidableEq

/-- `seg.char_start + seg.char_length`, the exclusive character end of a
segment. -/
def segEndChar (s : WordSegment) : ℕ := s.char_start + s.char_length

/-- `SessionAudio` from `app/main.py`. -/
structure SessionAudio where
  audio : NPArr
  sample_rate : ℤ
  channels : ℤ
deriving DecidableEq

/-- `len(self.session.audio) / self.session.sample_rate`. -/
def sessionDur (s : SessionAudio) : ℚ := (npLen s.audio : ℚ) / (s.sample_rate : ℚ)

/-- The segment loop inside `MainWindow._selection_to_time`: walk the segments
carrying the pending `start_t`; the loop breaks at the first segment whose
character end reaches the selection end. -/
def scanSegs (selStart selEnd : ℕ) : List WordSegment → Option ℚ → Option ℚ × Option ℚ
  | [], st => (st, none)
  | seg :: rest, st =>
    let st' := if st = none ∧ selStart < segEndChar seg then some seg.start_sec else st
    if selEnd ≤ segEndChar seg then (st', some (seg.start_sec + seg.duration_sec))
    else scanSegs selStart selEnd rest st'

/-- `MainWindow._selection_to_time`: `none` when there is no transcription or
the character selection is empty; otherwise `(start_t, end_t?)` where the
second component is `none` (Python `None`) exactly when no segment covers the
selection end and there is no session. -/
def selection_to_time (transcription : Option (List WordSegment))
    (session : Option SessionAudio) (selA selB : ℕ) : Option (ℚ × Option ℚ) :=
  match transcription with
  | none => none
  | some segs =>
    let s := min selA selB
    let e := max selA selB
    if s = e then none
    else
      let r := scanSegs s e segs none
      let start_t := r.1.getD 0
      let end_t : Option ℚ :=
        match r.2, session with
        | some t, _ => some t
        | none, some sess => some (sessionDur sess)
        | none, none => none
      some (start_t, end_t)

/-- The viewport-relevant state of `WaveformView`: the stored (column-0)
audio length and sample rate, playhead, selection, and the view window. -/
structure WaveState where
  hasAudio : Bool
  alen : ℕ
  sr : ℤ
  cursor : ℚ
  selStart : Option ℚ
  selEnd : Option ℚ
  viewStart : ℚ
  viewDur : Option ℚ
deriving DecidableEq

/-- `WaveformView.__init__`: no audio, default 44100 Hz, full view. -/
def initWave : WaveState :=
  { hasAudio := false, alen := 0, sr := 44100, cursor := 0,
    selStart := none, selEnd := none, viewStart := 0, viewDur := none }

/-- `WaveformView._duration`. -/
def wDuration (w : WaveState) : ℚ :=
  if w.hasAudio = false ∨ w.sr ≤ 0 then 0 else (w.alen : ℚ) / (w.sr : ℚ)

/-- `WaveformView._visible_range`. -/
def visibleRange (w : WaveState) : ℚ × ℚ :=
  let dur := wDuration w
  if dur ≤ 0 then (0, 0)
  else
    match w.viewDur with
    | none => (0, dur)
    | some vd =>
      if vd ≤ 0 ∨ dur ≤ vd then (0, dur)
      else
        let s := max 0 (min w.viewStart (max 0 (dur - vd)))
        (s, min dur (s + vd))

/-- `WaveformView._clamp_view`. -/
def clampView (w : WaveState) : WaveState :=
  let dur := wDuration w
  if dur ≤ 0 then { w with viewStart := 0, viewDur := none }
  else
    match w.viewDur with
    | some vd =>
      let vd' := max (min vd dur) (min (1/10) dur)
      { w with viewDur := some vd',
               viewStart := max 0 (min w.viewStart (dur - vd')) }
    | none => { w with viewStart := 0 }

/-- `WaveformView.set_audio`: store the audio (column 0 of a 2-D array) and
sample rate, reset the cursor, the selection, and the view to full
duration. -/
def set_audio (audio : NPArr) (sample_rate : ℤ) (w : WaveState) : WaveState :=
  { w with hasAudio := true, alen := npLen audio, sr := sample_rate,
           cursor := 0, selStart := none, selEnd := none,
           viewStart := 0, viewDur := none }

/-- `WaveformView.set_cursor_time`. -/
def set_cursor_time (t : ℚ) (w : WaveState) : WaveState :=
  { w with cursor := max 0 t }

/-- `WaveformView.set_selection`. -/
def set_selection (a b : Option ℚ) (w : WaveState) : WaveState :=
  { w with selStart := a, selEnd := b }

/-- `WaveformView._time_at_x`. -/
def timeAtX (w : WaveState) (x : ℚ) (width : ℕ) : ℚ :=
  let dur := wDuration w
  if dur ≤ 0 ∨ w.sr ≤ 0 then 0
  else
    let vs := (visibleRange w).1
    let ve := (visibleRange w).2
    let vr := max (1/1000000000) (ve - vs)
    let pos := min (max (x / max 1 (width : ℚ)) 0) 1
    vs + pos * vr

/-- `WaveformView.wheelEvent`: with Ctrl/Cmd held, zoom by 0.95/1.05 around
the cursor position; otherwise pan horizontally.  Both branches initialise the
view window if it was fit-to-full and end with `_clamp_view`. -/
def wheelEvent (px py ax ay : ℚ) (ctrl : Bool) (x : ℚ) (width : ℕ)
    (w : WaveState) : WaveState :=
  let delta_x := if px ≠ 0 then px else ax
  let delta_y := if py ≠ 0 then py else ay
  let dur := wDuration w
  if dur ≤ 0 then w
  else if ctrl then
    let factor : ℚ :=
      if 0 < (if delta_y ≠ 0 then delta_y else delta_x) then 95/100 else 105/100
    let w1 := if w.viewDur = none
      then { w with viewDur := some dur, viewStart := (visibleRange w).1 } else w
    let cursor_t := timeAtX w1 x width
    let vd := w1.viewDur.getD 0
    let new_dur := min (max (vd * factor) (min (1/20) dur)) dur
    let rel := (cursor_t - w1.viewStart) / max (1/1000000000) vd
    clampView { w1 with viewStart := cursor_t - rel * new_dur, viewDur := some new_dur }
  else
    let w1 := if w.viewDur = none
      then { w with viewDur := some dur, viewStart := (visibleRange w).1 } else w
    let vd := w1.viewDur.getD 0
    let step := if px ≠ 0 then (px / 300) * vd else (ax / 120) * (3/100) * vd
    clampView { w1 with viewStart := w1.viewStart - step }

/-- `WaveformView._handle_gesture`: trackpad pinch zoom.  A non-positive scale
is replaced by 1; the duration floor of the clip is `min(0.1, dur)`. -/
def handleGesture (scale0 : ℚ) (cx : Option ℚ) (width : ℕ)
    (w : WaveState) : WaveState :=
  let dur := wDuration w
  if dur ≤ 0 then w
  else
    let w1 := if w.viewDur = none
      then { w with viewDur := some dur, viewStart := (visibleRange w).1 } else w
    let scale := if scale0 ≤ 0 then 1 else scale0
    let factor := 1 / scale
    let vd := w1.viewDur.getD 0
    let new_dur := min (max (vd * factor) (min (1/10) dur)) dur
    let cursor_t := timeAtX w1 (cx.getD ((width : ℚ) / 2)) width
    let rel := (cursor_t - w1.viewStart) / max (1/1000000000) vd
    clampView { w1 with viewStart := cursor_t - rel * new_dur, viewDur := some new_dur }

/-- `WaveformView.mouseDoubleClickEvent`: reset zoom and scroll. -/
def doubleClick (w : WaveState) : WaveState :=
  { w with viewStart := 0, viewDur := none }

/-- A user gesture that drives the viewport: wheel (zoom or pan), pinch, or
double-click reset. -/
inductive WOp where
  | wheel (px py ax ay : ℚ) (ctrl : Bool) (x : ℚ) (width : ℕ)
  | pinch (scale : ℚ) (cx : Option ℚ) (width : ℕ)
  | reset

/-- Dispatch one gesture into the corresponding event handler. -/
def stepW : WOp → WaveState → WaveState
  | .wheel px py ax ay ctrl x width, w => wheelEvent px py ax ay ctrl x width w
  | .pinch s cx width, w => handleGesture s cx width w
  | .reset, w => doubleClick w

/-- Apply a sequence of gestures. -/
def runW (ops : List WOp) (w : WaveState) : WaveState :=
  ops.foldl (fun s o => stepW o s) w

/-- The viewport invariant of spec section 8: a non-negative view start, and
`view_start + view_duration ≤ total_duration` whenever a duration is set. -/
def ViewInv (w : WaveState) : Prop :=
  0 ≤ w.viewStart ∧ ∀ vd, w.viewDur = some vd → w.viewStart + vd ≤ wDuration w

/-- The zoom rule exactly as spec section 4.3 words it: duration clamped to
`[min(0.05, total), total]`, start recomputed so the centre keeps its relative
position, then clamped to `[0, total - new_duration]`.  Written from the
spec's words, for comparison with `wheelEvent`. -/
def zoom_spec (total old_start old_dur c f : ℚ) : ℚ × ℚ :=
  let new_dur := min (max (old_dur * f) (min (1/20) total)) total
  let rel := (c - old_start) / old_dur
  let new_start := min (max (c - rel * new_dur) 0) (total - new_dur)
  (new_start, new_dur)

/-- A concrete viewport state used as example input: 10 s of audio
(1000 frames at 100 Hz) with a 0.1 s view window starting at 0. -/
def zoomExampleWave : WaveState :=
  { hasAudio := true, alen := 1000, sr := 100, cursor := 0,
    selStart := none, selEnd := none, viewStart := 0, viewDur := some (1/10) }

/-- The session-controller state touched by the handlers the claims are
about. -/
structure MainState where
  session : Option SessionAudio
  transcription : Option (List WordSegment)
  selection_time : Option (ℚ × Option ℚ)
  selA : ℕ
  selB : ℕ
  wave : WaveState

/-- `MainWindow._delete_selection`.  `retr` is the transcription-result the
triggered `on_transcribe` call obtains from the external recogniser (only the
transcript fields depend on it).  The result is `none` only for the uncaught
`TypeError` raised when the resolved range's end component is Python `None`;
the caught numpy error on a channel mismatch leaves the state unchanged. -/
def delete_selection (st : MainState) (retr : Option (List WordSegment)) :
    Option MainState :=
  match st.session with
  | none => some st
  | some sess =>
    let sel := match st.selection_time with
      | some p => some p
      | none => selection_to_time st.transcription st.session st.selA st.selB
    match sel with
    | none => some st
    | some (_, none) => none
    | some (start_sec, some end_sec) =>
      if end_sec ≤ start_sec then some st
      else
        match splice_audio sess.audio sess.sample_rate start_sec end_sec (.d1 []) with
        | none => some st
        | some new_audio =>
          let sess' := { sess with audio := new_audio }
          let wv := set_cursor_time start_sec
            (set_selection none none (set_audio new_audio sess.sample_rate st.wave))
          some { st with session := some sess', wave := wv,
                         selection_time := none, transcription := retr }

/-- The not-armed branch of `MainWindow.on_stop` once the recorder has
returned a clip: adopt the clip when there is no (or an empty) session buffer,
append when the cursor sits within 0.05 s of the buffer end, and otherwise
replace the whole buffer.  A numpy channel mismatch on append raises and is
caught, leaving the session unchanged. -/
def stop_finalize (session : Option SessionAudio) (cursor : ℚ) (clip : NPArr)
    (sr : ℤ) : Option SessionAudio :=
  match session with
  | none => some ⟨clip, sr, 1⟩
  | some s =>
    if npLen s.audio = 0 then some ⟨clip, sr, 1⟩
    else
      let dur := sessionDur s
      if dur - 1/20 ≤ cursor then
        match concatArr s.audio clip with
        | some a => some { s with audio := a }
        | none => some s
      else some ⟨clip, sr, 1⟩

/-- A concrete controller state used as example input: a mono 1 s buffer of
ten frames at 10 Hz, a resolved selection over its first 0.1 s, and a zoomed
viewport window (start 1/4 s, duration 1/2 s). -/
def deleteExampleState : MainState :=
  { session := some ⟨NPArr.d1 [0, 0, 0, 0, 0, 0, 0, 0, 0, 0], 10, 1⟩,
    transcription := none,
    selection_time := some (0, some (1/10)),
    selA := 0, selB := 0,
    wave := { hasAudio := true, alen := 10, sr := 10, cursor := 0,
              selStart := none, selEnd := none,
              viewStart := 1/4, viewDur := some (1/2) } }

example : pyRound (3/2) = 2 := by with_unfolding_all decide
example : pyRound (1/2) = 0 := by with_unfolding_all decide
example : pyRound (5/2) = 2 := by with_unfolding_all decide
example : pyRound (-1/2) = 0 := by with_unfolding_all decide
example : pyRound (9/10) = 1 := by with_unfolding_all decide
example : ratTrunc (-9/10) = 0 := by with_unfolding_all decide
example : ratTrunc (9/10) = 0 := by with_unfolding_all decide
example : ratTrunc (-5/2) = -2 := by with_unfolding_all decide
example : splice_audio (.d1 [1, 2, 3, 4]) 2 (1/2) 1 (.d1 [9]) =
    some (.d2 1 [[1], [9], [3], [4]]) := by with_unfolding_all decide
example : splice_audio (.d1 [1, 2, 3, 4]) 2 2 2 (.d1 [9]) =
    some (.d2 1 [[1], [2], [3], [4], [9]]) := by with_unfolding_all decide
example : encode_pcm16 1 = 32767 := by with_unfolding_all decide
example : encode_pcm16 (-1) = -32767 := by with_unfolding_all decide

/-- In a well-formed array every (promoted) row has the channel count as its
length. -/
theorem npRows_len_eq_channels (a : NPArr) (h : npWF a) :
    ∀ r ∈ npRows a, r.length = npChannels a := by
  cases a with
  | d1 xs =>
    intro r hr
    simp only [npRows, List.mem_map] at hr
    obtain ⟨v, _, rfl⟩ := hr
    rfl
  | d2 c rows => exact h

/-- Basic facts about the splice indices: ordering, bounds, and their
equivalence with the clamping order the specification describes
(`end_idx` clamped to `[0, N]` and then raised to `start_idx`). -/
theorem spliceIdx_facts (base : NPArr) (R : ℤ) (s e : ℚ) :
    0 ≤ spliceStartIdx base R s ∧
    spliceStartIdx base R s ≤ spliceEndIdx base R s e ∧
    spliceEndIdx base R s e ≤ (npLen base : ℤ) ∧
    spliceStartIdx base R s = min (max (pyRound (s * (R : ℚ))) 0) (npLen base : ℤ) ∧
    spliceEndIdx base R s e =
      max (min (max (pyRound (e * (R : ℚ))) 0) (npLen base : ℤ))
          (spliceStartIdx base R s) := by
  have hN : (0 : ℤ) ≤ (npLen base : ℤ) := Int.natCast_nonneg _
  unfold spliceEndIdx spliceStartIdx seconds_to_frames
  omega

/-- Claim C1: `splice_audio` computes `start_idx`/`end_idx` by rounding
`seconds * sample_rate` and clamping to `[0, N]` (with `end_idx` further
raised to `start_idx`); the result has `start_idx + len(insert) + (N -
end_idx)` frames, and an empty insert over an empty time range leaves the
buffer's frames unchanged. -/
theorem splice_length_and_identity (base insert : NPArr) (R : ℤ) (s e : ℚ)
    (hR : 0 < R) (hch : npChannels insert = npChannels base) :
    ∃ rows,
      splice_audio base R s e insert = some (NPArr.d2 (npChannels base) rows) ∧
      (rows.length : ℤ) =
        min (max (pyRound (s * (R : ℚ))) 0) (npLen base : ℤ) + (npLen insert : ℤ) +
        ((npLen base : ℤ) -
          max (min (max (pyRound (e * (R : ℚ))) 0) (npLen base : ℤ))
              (min (max (pyRound (s * (R : ℚ))) 0) (npLen base : ℤ))) ∧
      (npRows insert = [] → s = e → rows = npRows base) := by
  obtain ⟨h0, h1, h2, h3, h4⟩ := spliceIdx_facts base R s e
  have hspl : splice_audio base R s e insert =
      some (NPArr.d2 (npChannels base)
        ((npRows base).take (spliceStartIdx base R s).toNat ++ npRows insert ++
         (npRows base).drop (spliceEndIdx base R s e).toNat)) := by
    unfold splice_audio
    rw [if_pos hch]
  refine ⟨_, hspl, ?_, ?_⟩
  · rw [← h3, ← h4]
    simp only [List.length_append, List.length_take, List.length_drop]
    have hlen : (npLen base : ℤ) = ((npRows base).length : ℤ) := rfl
    have hlen2 : (npLen insert : ℤ) = ((npRows insert).length : ℤ) := rfl
    omega
  · intro hins hse
    subst hse
    have hEq : spliceEndIdx base R s s = spliceStartIdx base R s := by
      unfold spliceEndIdx spliceStartIdx seconds_to_frames
      omega
    rw [hins, hEq, List.append_nil, List.take_append_drop]

/-- Witness for C1 at a concrete input. -/
theorem splice_length_and_identity_witness :
    ∃ rows,
      splice_audio (NPArr.d1 [1, 2, 3, 4]) 2 1 1 (NPArr.d1 []) =
        some (NPArr.d2 (npChannels (NPArr.d1 [1, 2, 3, 4])) rows) ∧
      (rows.length : ℤ) =
        min (max (pyRound ((1 : ℚ) * ((2 : ℤ) : ℚ))) 0) (npLen (NPArr.d1 [1, 2, 3, 4]) : ℤ)
          + (npLen (NPArr.d1 ([] : List ℚ)) : ℤ) +
        ((npLen (NPArr.d1 [1, 2, 3, 4]) : ℤ) -
          max (min (max (pyRound ((1 : ℚ) * ((2 : ℤ) : ℚ))) 0)
                (npLen (NPArr.d1 [1, 2, 3, 4]) : ℤ))
              (min (max (pyRound ((1 : ℚ) * ((2 : ℤ) : ℚ))) 0)
                (npLen (NPArr.d1 [1, 2, 3, 4]) : ℤ))) ∧
      (npRows (NPArr.d1 ([] : List ℚ)) = [] → (1 : ℚ) = 1 →
        rows = npRows (NPArr.d1 [1, 2, 3, 4])) :=
  splice_length_and_identity (NPArr.d1 [1, 2, 3, 4]) (NPArr.d1 []) 2 1 1
    (by decide) rfl

/-- Claim C8: splicing at `start_sec = end_sec = len(B)/R` is exactly
concatenation of the insert onto the buffer (including agreement of the
channel-mismatch failure cases). -/
theorem splice_at_duration_appends (base insert : NPArr) (R : ℤ) (hR : 0 < R) :
    splice_audio base R ((npLen base : ℚ) / (R : ℚ)) ((npLen base : ℚ) / (R : ℚ)) insert
      = concatArr base insert := by
  have hRQ : (R : ℚ) ≠ 0 := by
    have : (0 : ℚ) < (R : ℚ) := by exact_mod_cast hR
    exact this.ne'
  have hmul : ((npLen base : ℚ) / (R : ℚ)) * (R : ℚ) = ((npLen base : ℤ) : ℚ) := by
    rw [div_mul_cancel₀ _ hRQ]
    push_cast
    ring
  have hstf : seconds_to_frames ((npLen base : ℚ) / (R : ℚ)) R = (npLen base : ℤ) := by
    unfold seconds_to_frames
    rw [hmul, pyRound_intCast]
    have := Int.natCast_nonneg (npLen base)
    omega
  have hsi : spliceStartIdx base R ((npLen base : ℚ) / (R : ℚ)) = (npLen base : ℤ) := by
    unfold spliceStartIdx
    rw [hstf]
    have := Int.natCast_nonneg (npLen base)
    omega
  have hei : spliceEndIdx base R ((npLen base : ℚ) / (R : ℚ))
      ((npLen base : ℚ) / (R : ℚ)) = (npLen base : ℤ) := by
    unfold spliceEndIdx
    rw [hstf, hsi]
    omega
  have htoNat : ((npLen base : ℤ)).toNat = npLen base := by omega
  unfold splice_audio concatArr
  rw [hsi, hei, htoNat]
  have htake : (npRows base).take (npLen base) = npRows base := by
    exact List.take_length _
  have hdrop : (npRows base).drop (npLen base) = [] := by
    exact List.drop_length _
  rw [htake, hdrop, List.append_nil]


/-- Witness for C8 at a concrete input. -/
theorem splice_at_duration_appends_witness :
    splice_audio (NPArr.d1 [1, 2]) 2
        ((npLen (NPArr.d1 [1, 2]) : ℚ) / ((2 : ℤ) : ℚ))
        ((npLen (NPArr.d1 [1, 2]) : ℚ) / ((2 : ℤ) : ℚ)) (NPArr.d1 [9])
      = concatArr (NPArr.d1 [1, 2]) (NPArr.d1 [9]) :=
  splice_at_duration_appends (NPArr.d1 [1, 2]) (NPArr.d1 [9]) 2 (by decide)

/-- Claim C9: every successful `splice_audio` result is a 2-D array whose
rows all carry the base's channel count; a 1-D mono base with a 1-D empty
insert over an empty range comes back as the column-promoted 2-D version of
the base, so the output shape can differ from the input's even for an
identity edit. -/
theorem splice_always_2d (base insert : NPArr) (R : ℤ) (s e : ℚ)
    (hb : npWF base) (hi : npWF insert) :
    (∀ r, splice_audio base R s e insert = some r →
      ∃ rows, r = NPArr.d2 (npChannels base) rows ∧ npWF r) ∧
    (∀ (xs : List ℚ) (t : ℚ), splice_audio (NPArr.d1 xs) R t t (NPArr.d1 []) =
      some (NPArr.d2 1 (xs.map (fun v => [v])))) := by
  constructor
  · intro r hr
    unfold splice_audio at hr
    by_cases hch : npChannels insert = npChannels base
    · rw [if_pos hch] at hr
      injection hr with hr
      refine ⟨_, hr.symm, ?_⟩
      subst hr
      intro row hrow
      rcases List.mem_append.mp hrow with hrow | hrow
      · rcases List.mem_append.mp hrow with hrow | hrow
        · exact npRows_len_eq_channels base hb row (List.mem_of_mem_take hrow)
        · rw [npRows_len_eq_channels insert hi row hrow, hch]
      · exact npRows_len_eq_channels base hb row (List.mem_of_mem_drop hrow)
    · rw [if_neg hch] at hr
      cases hr
  · intro xs t
    have hEq : spliceEndIdx (NPArr.d1 xs) R t t = spliceStartIdx (NPArr.d1 xs) R t := by
      unfold spliceEndIdx spliceStartIdx seconds_to_frames
      have := Int.natCast_nonneg (npLen (NPArr.d1 xs))
      omega
    have hch : npChannels (NPArr.d1 ([] : List ℚ)) = npChannels (NPArr.d1 xs) := rfl
    have hnil : npRows (NPArr.d1 ([] : List ℚ)) = [] := rfl
    unfold splice_audio
    rw [if_pos hch, hEq, hnil, List.append_nil, List.take_append_drop]
    rfl

/-- Witness for C9 at a concrete input. -/
theorem splice_always_2d_witness :
    (∀ r, splice_audio (NPArr.d1 [5]) 1 0 1 (NPArr.d1 [7]) = some r →
      ∃ rows, r = NPArr.d2 (npChannels (NPArr.d1 [5])) rows ∧ npWF r) ∧
    (∀ (xs : List ℚ) (t : ℚ), splice_audio (NPArr.d1 xs) 1 t t (NPArr.d1 []) =
      some (NPArr.d2 1 (xs.map (fun v => [v])))) :=
  splice_always_2d (NPArr.d1 [5]) (NPArr.d1 [7]) 1 0 1 trivial trivial

/-- The distance of a rational from its truncation toward zero is below
one. -/
theorem abs_sub_ratTrunc_lt_one (q : ℚ) : |q - (ratTrunc q : ℚ)| < 1 := by
  rw [ratTrunc_eq]
  by_cases h : 0 ≤ q
  · rw [if_pos h]
    have h1 := Int.floor_le q
    have h2 := Int.lt_floor_add_one q
    rw [abs_of_nonneg (by linarith)]
    linarith
  · rw [if_neg h]
    have h1 := Int.le_ceil q
    have h2 := Int.ceil_lt_add_one q
    rw [abs_of_nonpos (by linarith)]
    linarith

/-- Claim C2 counterexample: at `x = 9/327670` the scaled sample is `0.9`;
the code's `astype` conversion truncates it to 0 while the claimed
round-to-integer gives 1. -/
theorem pcm_encode_truncates_cex :
    encode_pcm16 (9/327670) = 0 ∧ pyRound (clip1 (9/327670) * 32767) = 1 := by
  constructor
  · with_unfolding_all decide
  · with_unfolding_all decide

/-- Claim C2 (amended): the PCM16 encoding clamps to `[-1, 1]`, scales by
32767 and truncates toward zero (numpy `astype`) rather than rounding to
nearest; decoding divides by 32767; the round trip stays within `1/32767` on
`[-1, 1]`, and an all-zero buffer encodes and decodes back to exactly
zero. -/
theorem pcm_roundtrip (x : ℚ) (n : ℕ) (h1 : -1 ≤ x) (h2 : x ≤ 1) :
    |decode_pcm16 (encode_pcm16 x) - x| ≤ 1/32767 ∧
    decodeBuf (encodeBuf (List.replicate n 0)) = List.replicate n 0 := by
  constructor
  · have hclip : clip1 x = x := by
      unfold clip1
      rw [max_eq_left h1, min_eq_left h2]
    unfold decode_pcm16 encode_pcm16
    rw [hclip]
    have habs := abs_sub_ratTrunc_lt_one (x * 32767)
    rw [abs_sub_comm] at habs
    set t : ℤ := ratTrunc (x * 32767) with ht
    have hre : (t : ℚ) / 32767 - x = ((t : ℚ) - x * 32767) / 32767 := by ring
    rw [hre, abs_div, abs_of_pos (by norm_num : (0:ℚ) < 32767)]
    rw [div_le_div_iff (by norm_num) (by norm_num)]
    nlinarith [abs_nonneg ((t : ℚ) - x * 32767)]
  · unfold decodeBuf encodeBuf
    rw [List.map_replicate, List.map_replicate]
    have h0 : decode_pcm16 (encode_pcm16 0) = 0 := by
      with_unfolding_all decide
    rw [h0]

/-- Witness for the amended C2 at a concrete input. -/
theorem pcm_roundtrip_witness :
    |decode_pcm16 (encode_pcm16 (1/2)) - 1/2| ≤ 1/32767 ∧
    decodeBuf (encodeBuf (List.replicate 3 0)) = List.replicate 3 0 :=
  pcm_roundtrip (1/2) 3 (by with_unfolding_all decide)
    (by with_unfolding_all decide)

/-- Running the selection loop with `start_t` already fixed only searches for
the end segment. -/
theorem scanSegs_some (a e : ℕ) (v : ℚ) (segs : List WordSegment) :
    scanSegs a e segs (some v) =
      (some v, (segs.find? (fun g => e ≤ segEndChar g)).map
        (fun g => g.start_sec + g.duration_sec)) := by
  induction segs with
  | nil => simp [scanSegs]
  | cons seg rest ih =>
    by_cases h : e ≤ segEndChar seg
    · simp [scanSegs, List.find?_cons, h]
    · simp [scanSegs, List.find?_cons, h, ih]

/-- For a proper selection the loop returns, for each bound, the `find?` of
the code's predicate (the break at the end segment cannot hide a start
segment, because the end segment itself satisfies the start predicate). -/
theorem scanSegs_none (a e : ℕ) (h : a < e) (segs : List WordSegment) :
    scanSegs a e segs none =
      ((segs.find? (fun g => a < segEndChar g)).map (fun g => g.start_sec),
       (segs.find? (fun g => e ≤ segEndChar g)).map
         (fun g => g.start_sec + g.duration_sec)) := by
  induction segs with
  | nil => simp [scanSegs]
  | cons seg rest ih =>
    by_cases hs : a < segEndChar seg
    · by_cases he : e ≤ segEndChar seg
      · simp [scanSegs, List.find?_cons, hs, he]
      · simp [scanSegs, List.find?_cons, hs, he, scanSegs_some]
    · have he : ¬ e ≤ segEndChar seg := by omega
      simp [scanSegs, List.find?_cons, hs, he, ih]

/-- Claim C3: with a session present, a proper character selection maps to
the `start_sec` of the first segment whose character end exceeds the
selection start (0 if none) and to `start_sec + duration_sec` of the first
segment whose character end reaches the selection end (the buffer duration
if none); an empty selection maps to `None`. -/
theorem selection_to_time_spec (segs : List WordSegment) (sess : SessionAudio)
    (a b : ℕ) :
    (min a b < max a b →
      selection_to_time (some segs) (some sess) a b =
        some
          (((segs.find? (fun g => min a b < segEndChar g)).map
              (fun g => g.start_sec)).getD 0,
           some (((segs.find? (fun g => max a b ≤ segEndChar g)).map
              (fun g => g.start_sec + g.duration_sec)).getD (sessionDur sess)))) ∧
    (a = b → selection_to_time (some segs) (some sess) a b = none) := by
  constructor
  · intro h
    simp only [selection_to_time]
    rw [if_neg (by omega : ¬ min a b = max a b), scanSegs_none _ _ h]
    cases hf : segs.find? (fun g => max a b ≤ segEndChar g) with
    | none => simp [hf]
    | some g => simp [hf]
  · intro h
    subst h
    simp [selection_to_time]

/-- Witness for C3 at the spec's own "hello world" scenario. -/
theorem selection_to_time_spec_witness :
    selection_to_time
        (some [⟨"hello", 0, 1/2, 0, 5⟩, ⟨"world", 3/5, 1/2, 6, 5⟩])
        (some ⟨NPArr.d1 [0, 0], 2, 1⟩) 0 11 =
      some
        ((([⟨"hello", 0, 1/2, 0, 5⟩,
            (⟨"world", 3/5, 1/2, 6, 5⟩ : WordSegment)].find?
            (fun g => min 0 11 < segEndChar g)).map
            (fun g => g.start_sec)).getD 0,
         some ((([⟨"hello", 0, 1/2, 0, 5⟩,
            (⟨"world", 3/5, 1/2, 6, 5⟩ : WordSegment)].find?
            (fun g => max 0 11 ≤ segEndChar g)).map
            (fun g => g.start_sec + g.duration_sec)).getD
              (sessionDur ⟨NPArr.d1 [0, 0], 2, 1⟩))) :=
  (selection_to_time_spec [⟨"hello", 0, 1/2, 0, 5⟩, ⟨"world", 3/5, 1/2, 6, 5⟩]
    ⟨NPArr.d1 [0, 0], 2, 1⟩ 0 11).1 (by decide)

/-- Claim C10: when the selection end lies beyond every segment's character
range and there is no session, `_selection_to_time` returns a pair whose end
component is Python `None`. -/
theorem selection_to_time_none_end (segs : List WordSegment) (a b : ℕ)
    (hab : min a b < max a b)
    (hall : ∀ g ∈ segs, segEndChar g < max a b) :
    ∃ st, selection_to_time (some segs) none a b = some (st, none) := by
  have hfind : segs.find? (fun g => max a b ≤ segEndChar g) = none := by
    rw [List.find?_eq_none]
    intro g hg
    simpa using Nat.not_le.mpr (hall g hg)
  refine ⟨((segs.find? (fun g => min a b < segEndChar g)).map
    (fun g => g.start_sec)).getD 0, ?_⟩
  simp only [selection_to_time]
  rw [if_neg (by omega : ¬ min a b = max a b), scanSegs_none _ _ hab, hfind]
  rfl

/-- Witness for C10 at a concrete input. -/
theorem selection_to_time_none_end_witness :
    ∃ st, selection_to_time (some [⟨"hi", 0, 1/2, 0, 2⟩]) none 0 9 =
      some (st, none) :=
  selection_to_time_none_end [⟨"hi", 0, 1/2, 0, 2⟩] 0 9 (by decide)
    (by decide)

/-- `_clamp_view` does not touch the audio fields, so the duration is
unchanged. -/
theorem wDuration_clampView (w : WaveState) : wDuration (clampView w) = wDuration w := by
  simp only [clampView]
  split
  · rfl
  · split <;> rfl

/-- `_clamp_view` unconditionally establishes the viewport invariant. -/
theorem clampView_inv (w : WaveState) : ViewInv (clampView w) := by
  unfold ViewInv
  rw [wDuration_clampView]
  unfold clampView
  by_cases h : wDuration w ≤ 0
  · rw [if_pos h]
    refine ⟨le_refl 0, ?_⟩
    intro vd hvd
    simp at hvd
  · rw [if_neg h]
    push_neg at h
    cases hvd : w.viewDur with
    | none =>
      refine ⟨le_refl 0, ?_⟩
      intro vd hv
      simp [hvd] at hv
    | some vd0 =>
      constructor
      · exact le_max_left 0 _
      · intro vd hv
        simp only [WaveState.viewDur] at hv
        injection hv with hv
        subst hv
        have hle : max (min vd0 (wDuration w)) (min (1/10) (wDuration w)) ≤ wDuration w :=
          max_le (min_le_right _ _) (min_le_right _ _)
        have h2 : max 0 (min w.viewStart
            (wDuration w - max (min vd0 (wDuration w)) (min (1/10) (wDuration w)))) ≤
            wDuration w - max (min vd0 (wDuration w)) (min (1/10) (wDuration w)) :=
          max_le (by linarith) (min_le_right _ _)
        simp only [WaveState.viewStart]
        linarith

/-- Zoom and pan wheel events preserve the viewport invariant. -/
theorem wheelEvent_inv (px py ax ay : ℚ) (ctrl : Bool) (x : ℚ) (width : ℕ)
    (w : WaveState) (h : ViewInv w) :
    ViewInv (wheelEvent px py ax ay ctrl x width w) := by
  unfold wheelEvent
  by_cases h0 : wDuration w ≤ 0
  · simpa [h0] using h
  · by_cases hc : ctrl = true
    · simp only [h0, hc, if_false, if_true, ite_true, ite_false]
      exact clampView_inv _
    · simp only [h0, hc, if_false, if_true, ite_true, ite_false]
      exact clampView_inv _

/-- Pinch gestures preserve the viewport invariant. -/
theorem handleGesture_inv (scale0 : ℚ) (cx : Option ℚ) (width : ℕ)
    (w : WaveState) (h : ViewInv w) :
    ViewInv (handleGesture scale0 cx width w) := by
  unfold handleGesture
  by_cases h0 : wDuration w ≤ 0
  · simpa [h0] using h
  · simp only [h0, if_false, if_true, ite_true, ite_false]
    exact clampView_inv _

/-- Double-click reset establishes the viewport invariant. -/
theorem doubleClick_inv (w : WaveState) : ViewInv (doubleClick w) := by
  refine ⟨le_refl 0, ?_⟩
  intro vd hv
  simp [doubleClick] at hv

/-- `set_audio` establishes the viewport invariant. -/
theorem set_audio_inv (audio : NPArr) (sr : ℤ) (w : WaveState) :
    ViewInv (set_audio audio sr w) := by
  refine ⟨le_refl 0, ?_⟩
  intro vd hv
  simp [set_audio] at hv

/-- Every gesture preserves the viewport invariant. -/
theorem stepW_inv (op : WOp) (w : WaveState) (h : ViewInv w) :
    ViewInv (stepW op w) := by
  cases op with
  | wheel px py ax ay ctrl x width => exact wheelEvent_inv px py ax ay ctrl x width w h
  | pinch s cx width => exact handleGesture_inv s cx width w h
  | reset => exact doubleClick_inv w

/-- Gesture sequences preserve the viewport invariant. -/
theorem runW_inv (ops : List WOp) (w : WaveState) (h : ViewInv w) :
    ViewInv (runW ops w) := by
  induction ops generalizing w with
  | nil => exact h
  | cons op rest ih =>
    have : runW (op :: rest) w = runW rest (stepW op w) := rfl
    rw [this]
    exact ih _ (stepW_inv op w h)

/-- Claim C6: starting from any freshly set buffer (any total duration,
zero included), every sequence of zoom, pan, pinch and reset gestures keeps
`0 ≤ view_start`, and `view_start + view_duration ≤ total_duration` whenever
a view duration is set. -/
theorem viewport_invariant (st : WaveState) (audio : NPArr) (sr : ℤ)
    (ops : List WOp) : ViewInv (runW ops (set_audio audio sr st)) :=
  runW_inv ops _ (set_audio_inv audio sr st)

/-- Claim C5 counterexample: a wheel zoom-in at the minimum window on a 10 s
buffer.  The spec formula gives a new duration of `0.1 × 0.95 = 0.095 s`
(clamp floor `min(0.05, 10)`), but the code's final `_clamp_view` raises the
stored duration back to `0.1 s`. -/
theorem wheel_zoom_cex :
    (wheelEvent 0 0 0 120 true 0 100 zoomExampleWave).viewDur = some (1/10) ∧
    (zoom_spec 10 0 (1/10) 0 (95/100)).2 = 19/200 ∧
    ((1 : ℚ)/10) ≠ 19/200 := by
  refine ⟨?_, ?_, ?_⟩ <;> with_unfolding_all decide

/-- Claim C5 (amended): for a Ctrl/Cmd wheel zoom on an already-windowed
view, the new duration is `old × factor` clipped to
`[min(0.05, total), total]` exactly as the spec says, but the trailing
`_clamp_view` then raises the stored duration to at least `min(0.1, total)`;
the view start is recomputed from the pre-raise duration and clamped to
`[0, total - final_duration]`.  (The pinch-gesture zoom uses the
`min(0.1, total)` floor already in its clip.) -/
theorem wheel_zoom_formula (w : WaveState) (x : ℚ) (width : ℕ) (ay vd : ℚ)
    (hdur : 0 < wDuration w) (hvd : w.viewDur = some vd)
    (hvd9 : 1/1000000000 ≤ vd) :
    (wheelEvent 0 0 0 ay true x width w).viewDur =
      some (max (zoom_spec (wDuration w) w.viewStart vd (timeAtX w x width)
                  (if 0 < ay then 95/100 else 105/100)).2
                (min (1/10) (wDuration w))) ∧
    (wheelEvent 0 0 0 ay true x width w).viewStart =
      max 0 (min
        (timeAtX w x width - (timeAtX w x width - w.viewStart) / vd *
          (zoom_spec (wDuration w) w.viewStart vd (timeAtX w x width)
            (if 0 < ay then 95/100 else 105/100)).2)
        (wDuration w -
          max (zoom_spec (wDuration w) w.viewStart vd (timeAtX w x width)
                (if 0 < ay then 95/100 else 105/100)).2
              (min (1/10) (wDuration w)))) := by
  set dur := wDuration w with hdurdef
  set c := timeAtX w x width with hc
  set f : ℚ := if 0 < ay then 95/100 else 105/100 with hf
  set nd := (zoom_spec dur w.viewStart vd c f).2 with hnd
  have hndval : nd = min (max (vd * f) (min (1/20) dur)) dur := by
    rw [hnd]
    unfold zoom_spec
    rfl
  have hndle : nd ≤ dur := by rw [hndval]; exact min_le_right _ _
  have hmin : min nd dur = nd := min_eq_left hndle
  have hne : ¬ dur ≤ 0 := not_le.mpr hdur
  have hwne : ¬ w.viewDur = none := by rw [hvd]; simp
  have hstep : wheelEvent 0 0 0 ay true x width w =
      clampView { w with viewStart := c - (c - w.viewStart) / vd * nd,
                         viewDur := some nd } := by
    unfold wheelEvent
    rw [if_neg hne, if_pos rfl, if_neg hwne]
    have e1 : (if (0:ℚ) ≠ 0 then (0:ℚ) else ay) = ay := by simp
    have e2 : (if (0:ℚ) ≠ 0 then (0:ℚ) else (0:ℚ)) = 0 := by simp
    have e3 : (if 0 < (if ay ≠ 0 then ay else (0:ℚ)) then (95/100 : ℚ) else 105/100) = f := by
      by_cases hay : ay = 0
      · subst hay; simp [hf]
      · simp [hay, hf]
    rw [e1, e2, e3]
    dsimp only
    rw [hvd]
    dsimp only [Option.getD_some]
    rw [max_eq_right hvd9, ← hdurdef, ← hc, ← hndval]
  rw [hstep]
  have hdur2 : wDuration
      { w with viewStart := c - (c - w.viewStart) / vd * nd, viewDur := some nd }
      = dur := rfl
  have hclamp : clampView
      { w with viewStart := c - (c - w.viewStart) / vd * nd, viewDur := some nd } =
      { w with
        viewStart := max 0 (min (c - (c - w.viewStart) / vd * nd)
          (dur - max nd (min (1/10) dur))),
        viewDur := some (max nd (min (1/10) dur)) } := by
    unfold clampView
    dsimp only
    rw [hdur2, if_neg hne]
    rw [hmin]
  rw [hclamp]
  exact ⟨rfl, rfl⟩

/-- Witness for the amended C5 at a concrete input. -/
theorem wheel_zoom_formula_witness :
    (wheelEvent 0 0 0 120 true 0 100 zoomExampleWave).viewDur =
      some (max (zoom_spec (wDuration zoomExampleWave) zoomExampleWave.viewStart (1/10)
                  (timeAtX zoomExampleWave 0 100)
                  (if (0:ℚ) < 120 then 95/100 else 105/100)).2
                (min (1/10) (wDuration zoomExampleWave))) ∧
    (wheelEvent 0 0 0 120 true 0 100 zoomExampleWave).viewStart =
      max 0 (min
        (timeAtX zoomExampleWave 0 100 -
          (timeAtX zoomExampleWave 0 100 - zoomExampleWave.viewStart) / (1/10) *
          (zoom_spec (wDuration zoomExampleWave) zoomExampleWave.viewStart (1/10)
            (timeAtX zoomExampleWave 0 100)
            (if (0:ℚ) < 120 then 95/100 else 105/100)).2)
        (wDuration zoomExampleWave -
          max (zoom_spec (wDuration zoomExampleWave) zoomExampleWave.viewStart (1/10)
                (timeAtX zoomExampleWave 0 100)
                (if (0:ℚ) < 120 then 95/100 else 105/100)).2
              (min (1/10) (wDuration zoomExampleWave)))) :=
  wheel_zoom_formula zoomExampleWave 0 100 120 (1/10)
    (by with_unfolding_all decide) rfl (by with_unfolding_all decide)

/-- Claim C4 counterexample: deleting a selection is not a wholesale
replace or clear, yet it changes the viewport: the example state's
`(view_start, view_duration) = (1/4, 1/2)` becomes `(0, full fit)` after the
delete. -/
theorem delete_viewport_cex :
    ((delete_selection deleteExampleState none).map
      (fun st' => (st'.wave.viewStart, st'.wave.viewDur))) = some (0, none) ∧
    (deleteExampleState.wave.viewStart, deleteExampleState.wave.viewDur) =
      (1/4, some (1/2)) ∧
    ((0 : ℚ), (none : Option ℚ)) ≠ ((1/4 : ℚ), some ((1/2) : ℚ)) := by
  refine ⟨?_, ?_, ?_⟩ <;> with_unfolding_all decide

/-- Claim C4 (amended): a successful delete-selection splice resets the
viewport to full-duration fit, because every buffer mutation hands the new
buffer to `set_audio`, which always resets the view; the reset is not limited
to wholesale replace or clear. -/
theorem delete_resets_viewport (st : MainState) (retr : Option (List WordSegment))
    (sess : SessionAudio) (a b : ℚ) (na : NPArr)
    (hsess : st.session = some sess)
    (hsel : st.selection_time = some (a, some b))
    (hab : ¬ b ≤ a)
    (hsp : splice_audio sess.audio sess.sample_rate a b (NPArr.d1 []) = some na) :
    ((delete_selection st retr).map
      (fun st' => (st'.wave.viewStart, st'.wave.viewDur))) = some (0, none) ∧
    (∀ (audio : NPArr) (sr : ℤ) (w : WaveState),
       (set_audio audio sr w).viewStart = 0 ∧ (set_audio audio sr w).viewDur = none) := by
  constructor
  · simp [delete_selection, hsess, hsel, hab, hsp, set_cursor_time, set_selection,
      set_audio]
  · intro audio sr w
    exact ⟨rfl, rfl⟩

/-- Witness for the amended C4 at a concrete input. -/
theorem delete_resets_viewport_witness :
    ((delete_selection deleteExampleState none).map
      (fun st' => (st'.wave.viewStart, st'.wave.viewDur))) = some (0, none) ∧
    (∀ (audio : NPArr) (sr : ℤ) (w : WaveState),
       (set_audio audio sr w).viewStart = 0 ∧ (set_audio audio sr w).viewDur = none) :=
  delete_resets_viewport deleteExampleState none
    ⟨NPArr.d1 [0, 0, 0, 0, 0, 0, 0, 0, 0, 0], 10, 1⟩ 0 (1/10)
    (NPArr.d2 1 [[0], [0], [0], [0], [0], [0], [0], [0], [0]])
    rfl rfl (by with_unfolding_all decide) (by with_unfolding_all decide)

/-- Claim C7: when Stop fires while recording with no re-record armed, the
clip becomes the buffer if there is no (or an empty) session buffer; else it
is appended when the playback cursor is within 0.05 s of the buffer end
(`cursor >= dur - 0.05`); otherwise it replaces the whole buffer. -/
theorem stop_finalize_policy (cursor : ℚ) (clip : NPArr) (sr : ℤ)
    (s : SessionAudio) :
    (stop_finalize none cursor clip sr = some ⟨clip, sr, 1⟩) ∧
    (npLen s.audio = 0 → stop_finalize (some s) cursor clip sr = some ⟨clip, sr, 1⟩) ∧
    (npLen s.audio ≠ 0 → sessionDur s - 1/20 ≤ cursor →
      npChannels clip = npChannels s.audio →
      stop_finalize (some s) cursor clip sr =
        some { s with
          audio := NPArr.d2 (npChannels s.audio) (npRows s.audio ++ npRows clip) }) ∧
    (npLen s.audio ≠ 0 → cursor < sessionDur s - 1/20 →
      stop_finalize (some s) cursor clip sr = some ⟨clip, sr, 1⟩) := by
  refine ⟨rfl, ?_, ?_, ?_⟩
  · intro h0
    simp only [stop_finalize]
    rw [if_pos h0]
  · intro h0 hcur hch
    have hc2 : concatArr s.audio clip =
        some (NPArr.d2 (npChannels s.audio) (npRows s.audio ++ npRows clip)) := by
      unfold concatArr
      rw [if_pos hch]
    simp only [stop_finalize]
    rw [if_neg h0, if_pos hcur, hc2]
  · intro h0 hcur
    simp only [stop_finalize]
    rw [if_neg h0, if_neg (not_le.mpr hcur)]

/-- Witness for C7 at concrete inputs: append when the cursor is at the end
of a 1 s buffer, replace when it is at 0. -/
theorem stop_finalize_policy_witness :
    (stop_finalize (some ⟨NPArr.d1 [0, 0], 2, 1⟩) 1 (NPArr.d1 [1]) 2 =
      some { (⟨NPArr.d1 [0, 0], 2, 1⟩ : SessionAudio) with
        audio := NPArr.d2 (npChannels (NPArr.d1 [0, 0]))
          (npRows (NPArr.d1 [0, 0]) ++ npRows (NPArr.d1 [1])) }) ∧
    (stop_finalize (some ⟨NPArr.d1 [0, 0], 2, 1⟩) 0 (NPArr.d1 [1]) 2 =
      some ⟨NPArr.d1 [1], 2, 1⟩) :=
  ⟨(stop_finalize_policy 1 (NPArr.d1 [1]) 2 ⟨NPArr.d1 [0, 0], 2, 1⟩).2.2.1
      (by decide) (by with_unfolding_all decide) rfl,
   (stop_finalize_policy 0 (NPArr.d1 [1]) 2 ⟨NPArr.d1 [0, 0], 2, 1⟩).2.2.2
      (by decide) (by with_unfolding_all decide)⟩

end Transcriber
